import Mathlib

set_option maxRecDepth 16000

/-!
Verification of the clean-dashboard backend (src/server.js, the
"Fixed & Secured" server at lines 793-1598, which the later route
registrations and the specification describe).

The embedding models the Express handlers as pure functions over an
explicit document store.  MongoDB numbers are modelled as exact
rationals (prices, totals) and integers (stock); strings are Lean
strings; loosely-typed request fields are `Option`s, with JavaScript
falsiness made explicit.  Each handler returns its outcome together
with the updated store, and the order-placement handler additionally
returns the list of stock mutations it performed, in order.
-/

namespace CleanStore

/-- Model of the JavaScript value found in a line item's `quantity`
field, as seen by `Number(item.quantity) || 1` (server.js:1429):
`missing` is an absent field (`Number(undefined)` is `NaN`),
`nonNumeric` is any value that coerces to `NaN`, and `num q` is a
value that coerces to the number `q`. -/
inductive JsQty where
  | missing
  | nonNumeric
  | num (q : ℚ)
deriving Repr, DecidableEq

/-- JavaScript coercion `Number(item.quantity) || 1` (server.js:1429):
`NaN` and `0` are falsy, so they default to `1`. -/
def coerceQty : JsQty → ℚ
  | .missing => 1
  | .nonNumeric => 1
  | .num q => if q = 0 then 1 else q

/-- Quantity validation `Number.isInteger(qty) && qty >= 1 && qty <= 1000`
(server.js:1432). -/
def qtyOk (q : ℚ) : Bool :=
  q.den == 1 && decide (1 ≤ q) && decide (q ≤ 1000)

/-- Hexadecimal digit test used by the ObjectId format check. -/
def hexDigit (c : Char) : Bool :=
  c.isDigit || (decide ('a' ≤ c) && decide (c ≤ 'f')) ||
    (decide ('A' ≤ c) && decide (c ≤ 'F'))

/-- Model of `mongoose.Types.ObjectId.isValid` (server.js:999-1001): a
string is a syntactically valid ObjectId when it is 24 hexadecimal
characters, or any 12-character string. -/
def isValidObjectId (s : String) : Bool :=
  (s.data.length == 24 && s.data.all hexDigit) || s.data.length == 12

/-- Character class `[^\s@]` of the e-mail pattern EMAIL_REGEX
(server.js:966). -/
def atomOk (c : Char) : Bool :=
  !(c == '@') && !c.isWhitespace

/-- Splits a character list at the first occurrence of `c`, when present. -/
def splitFirstAt (c : Char) : List Char → Option (List Char × List Char)
  | [] => none
  | x :: xs =>
    if x = c then some ([], xs)
    else
      match splitFirstAt c xs with
      | some (l, r) => some (x :: l, r)
      | none => none

/-- Model of EMAIL_REGEX test, the pattern being
`/^[^\s@]+@[^\s@]+\.[^\s@]+$/` (server.js:966): a nonempty local part
without whitespace or `@`, one `@`, and a domain without whitespace or
`@` containing a dot that is neither its first nor its last character. -/
def emailOk (s : String) : Bool :=
  match splitFirstAt '@' s.data with
  | none => false
  | some (lo, dom) =>
    !lo.isEmpty && lo.all atomOk && dom.all atomOk &&
      (dom.drop 1).dropLast.contains '.'

/-- A Product document (productSchema, server.js:902-911); fields not
touched by the verified handlers (description, image, timestamps) are
omitted.  Stock is an integer so that non-negativity is a real
statement. -/
structure Product where
  pid : String
  name : String
  price : ℚ
  category : String
  stock : Int
deriving Repr, DecidableEq

/-- The Product collection. -/
abbrev Store := List Product

/-- Guarded decrement
`Product.findOneAndUpdate({_id: prodId, stock: {$gte: qty}}, {$inc: {stock: -qty}}, {new: true})`
(server.js:1442-1446): the first document matching both conditions has
its stock decremented, and the updated document is returned; with no
match, nothing changes and `none` is returned. -/
def findOneAndUpdateDec (pid : String) (q : Int) : Store → Option Product × Store
  | [] => (none, [])
  | p :: ps =>
    if p.pid = pid ∧ q ≤ p.stock then
      ({ p with stock := p.stock - q } |> some, { p with stock := p.stock - q } :: ps)
    else
      let r := findOneAndUpdateDec pid q ps
      (r.1, p :: r.2)

/-- Compensating increment
`Product.findByIdAndUpdate(d.id, {$inc: {stock: d.qty}})` (server.js:1433,
1438, 1449): the first document with the given id has its stock
incremented. -/
def findByIdAndUpdateInc (pid : String) (q : Int) : Store → Store
  | [] => []
  | p :: ps =>
    if p.pid = pid then { p with stock := p.stock + q } :: ps
    else p :: findByIdAndUpdateInc pid q ps

/-- The rollback loop `for (const d of decremented) await
Product.findByIdAndUpdate(d.id, {$inc: {stock: d.qty}})`, applied in
the order the decrements were recorded. -/
def rollback (decs : List (String × Int)) (st : Store) : Store :=
  decs.foldl (fun s d => findByIdAndUpdateInc d.1 d.2 s) st

/-- One line item of the request body: `id`, `productId`, `quantity`,
plus the client-supplied `name` and `price`, which the fixed handler
reads only for the insufficient-stock error label (name) or not at all
(price). -/
structure ReqItem where
  id : Option String
  productId : Option String
  quantity : JsQty
  name : Option String
  clientPrice : Option ℚ
deriving Repr, DecidableEq

/-- JavaScript `item.id || item.productId` (server.js:1428); an absent
result is modelled as the empty string, which no ObjectId check
accepts. -/
def ReqItem.prodId (it : ReqItem) : String :=
  match it.id with
  | some s => if s = "" then it.productId.getD "" else s
  | none => it.productId.getD ""

/-- Label `item.name || prodId` used in the insufficient-stock message
(server.js:1450). -/
def itemLabel (it : ReqItem) : String :=
  match it.name with
  | some s => if s = "" then it.prodId else s
  | none => it.prodId

/-- Order status enumeration (orderSchema, server.js:927). -/
inductive OrderStatus where
  | pending
  | confirmed
  | delivered
  | cancelled
deriving Repr, DecidableEq

/-- A persisted order line item (orderItemSchema, server.js:913-918). -/
structure OrderItem where
  productId : String
  name : String
  quantity : ℚ
  price : ℚ
deriving Repr, DecidableEq

/-- An Order document (orderSchema, server.js:920-930); timestamps are
omitted. -/
structure Order where
  customerName : String
  customerEmail : String
  customerPhone : String
  address : String
  items : List OrderItem
  totalAmount : ℚ
  status : OrderStatus
deriving Repr, DecidableEq

/-- Floor of a rational, computed structurally so that concrete values
reduce in the kernel. -/
def ratFloor (q : ℚ) : ℤ :=
  q.num.fdiv q.den

/-- Rounding `parseFloat(x.toFixed(2))` (server.js:1464), modelled
exactly on rationals: round to the nearest hundredth (ties upward;
the handler only rounds non-negative totals, where this agrees with
JavaScript's round-half-away-from-zero). -/
def round2 (q : ℚ) : ℚ :=
  (ratFloor (q * 100 + 1 / 2) : ℚ) / 100

/-- ASCII model of JavaScript `String.prototype.trim`, computed
structurally (whitespace stripped from both ends). -/
def jsTrim (s : String) : String :=
  ⟨((s.data.dropWhile Char.isWhitespace).reverse.dropWhile Char.isWhitespace).reverse⟩

/-- Model of JavaScript `String.prototype.toLowerCase`, computed
structurally. -/
def jsLower (s : String) : String :=
  ⟨s.data.map Char.toLower⟩

/-- One stock mutation performed by the order handler: a successful
guarded decrement, or a compensating increment. -/
inductive StockMut where
  | dec (pid : String) (q : Int)
  | inc (pid : String) (q : Int)
deriving Repr, DecidableEq

/-- The trace extension performed by the rollback loop. -/
def rollTrace (tr : List StockMut) (decs : List (String × Int)) : List StockMut :=
  tr ++ decs.map (fun d => StockMut.inc d.1 d.2)

/-- The typed 400-errors of POST /api/orders.  The first five are the
ValidationError class of the specification taxonomy. -/
inductive OrderError where
  | missingFields
  | badEmail
  | noItems
  | tooManyItems
  | badQuantity
  | invalidReference (pid : String)
  | insufficientStock (label : String)
deriving Repr, DecidableEq

/-- Whether an error belongs to the ValidationError class
(missing/invalid input, as opposed to reference or stock failures). -/
def OrderError.isValidation : OrderError → Bool
  | .missingFields => true
  | .badEmail => true
  | .noItems => true
  | .tooManyItems => true
  | .badQuantity => true
  | _ => false

/-- Outcome of POST /api/orders: HTTP 400 with a typed error, or
HTTP 201 with the created order. -/
inductive PostOutcome where
  | badRequest (e : OrderError)
  | created (o : Order)
deriving Repr, DecidableEq

/-- HTTP status code of an outcome. -/
def PostOutcome.http : PostOutcome → Nat
  | .badRequest _ => 400
  | .created _ => 201

/-- Result of the reservation loop: error or (validatedItems,
calculatedTotal), with the store and the mutation trace. -/
structure LoopRes where
  res : OrderError ⊕ (List OrderItem × ℚ)
  store : Store
  trace : List StockMut
deriving Repr, DecidableEq

/-- The reservation loop of POST /api/orders (server.js:1427-1456):
items are processed in order; each item passes the quantity check,
then the ObjectId check, then the guarded decrement; any failure rolls
back all previously recorded decrements and stops with the typed
error. -/
def reserveLoop :
    Store → List StockMut → List (String × Int) → List OrderItem → ℚ →
      List ReqItem → LoopRes
  | st, tr, _decs, acc, total, [] => ⟨Sum.inr (acc, total), st, tr⟩
  | st, tr, decs, acc, total, item :: rest =>
    if qtyOk (coerceQty item.quantity) = false then
      ⟨Sum.inl OrderError.badQuantity, rollback decs st, rollTrace tr decs⟩
    else if isValidObjectId item.prodId = false then
      ⟨Sum.inl (OrderError.invalidReference item.prodId), rollback decs st,
        rollTrace tr decs⟩
    else
      match findOneAndUpdateDec item.prodId (coerceQty item.quantity).num st with
      | (none, st2) =>
        ⟨Sum.inl (OrderError.insufficientStock (itemLabel item)), rollback decs st2,
          rollTrace tr decs⟩
      | (some u, st1) =>
        reserveLoop st1
          (tr ++ [StockMut.dec item.prodId (coerceQty item.quantity).num])
          (decs ++ [(item.prodId, (coerceQty item.quantity).num)])
          (acc ++ [⟨u.pid, u.name, coerceQty item.quantity, u.price⟩])
          (total + u.price * coerceQty item.quantity) rest

/-- The POST /api/orders request body (server.js:1407). -/
structure OrderReq where
  customerName : Option String
  customerEmail : Option String
  customerPhone : Option String
  address : Option String
  items : Option (List ReqItem)
deriving Repr, DecidableEq

/-- JavaScript falsiness of an optional string field: absent or empty. -/
def falsy : Option String → Bool
  | none => true
  | some s => s == ""

/-- JavaScript `customerPhone?.trim() || ''` (server.js:1461). -/
def jsPhone : Option String → String
  | none => ""
  | some s => jsTrim s

/-- The order document built by `Order.create` on the success path
(server.js:1458-1465); status defaults to pending per the schema. -/
def mkOrder (req : OrderReq) (vItems : List OrderItem) (total : ℚ) : Order :=
  { customerName := jsTrim (req.customerName.getD "")
    customerEmail := jsTrim (jsLower (req.customerEmail.getD ""))
    customerPhone := jsPhone req.customerPhone
    address := jsTrim (req.address.getD "")
    items := vItems
    totalAmount := round2 total
    status := OrderStatus.pending }

/-- Full result of POST /api/orders: outcome, Product store, Order
collection, and stock-mutation trace. -/
structure PostOrdersRes where
  outcome : PostOutcome
  store : Store
  orders : List Order
  trace : List StockMut
deriving Repr, DecidableEq

/-- The POST /api/orders handler (server.js:1405-1472): top-level
validation of customer fields, e-mail format, and the item list, then
the reservation loop, then `Order.create`. -/
def postOrders (req : OrderReq) (st : Store) (orders : List Order) : PostOrdersRes :=
  if falsy req.customerName || falsy req.customerEmail || falsy req.address then
    ⟨.badRequest .missingFields, st, orders, []⟩
  else if emailOk (req.customerEmail.getD "") = false then
    ⟨.badRequest .badEmail, st, orders, []⟩
  else
    match req.items with
    | none => ⟨.badRequest .noItems, st, orders, []⟩
    | some its =>
      if its.length = 0 then ⟨.badRequest .noItems, st, orders, []⟩
      else if 50 < its.length then ⟨.badRequest .tooManyItems, st, orders, []⟩
      else
        let lr := reserveLoop st [] [] [] 0 its
        match lr.res with
        | Sum.inl e => ⟨.badRequest e, lr.store, orders, lr.trace⟩
        | Sum.inr (vItems, total) =>
          ⟨.created (mkOrder req vItems total), lr.store,
            orders ++ [mkOrder req vItems total], lr.trace⟩

/-- The sum of price times quantity over a list of order items. -/
def itemsTotal (l : List OrderItem) : ℚ :=
  (l.map (fun it => it.price * it.quantity)).sum

/-- The result of POST /api/orders once all top-level validations have
passed: the outcome of the reservation loop, packaged with store,
orders and trace exactly as the handler does. -/
def loopOutcomeRes (req : OrderReq) (st : Store) (orders : List Order)
    (its : List ReqItem) : PostOrdersRes :=
  match (reserveLoop st [] [] [] 0 its).res with
  | Sum.inl e =>
    ⟨.badRequest e, (reserveLoop st [] [] [] 0 its).store, orders,
      (reserveLoop st [] [] [] 0 its).trace⟩
  | Sum.inr (vItems, total) =>
    ⟨.created (mkOrder req vItems total), (reserveLoop st [] [] [] 0 its).store,
      orders ++ [mkOrder req vItems total], (reserveLoop st [] [] [] 0 its).trace⟩

/-- The non-stock fields of a product, preserved by every stock
mutation. -/
def pInfo (p : Product) : String × String × ℚ × String :=
  (p.pid, p.name, p.price, p.category)

/-- Identifier, name and price of a product: the fields captured into
an order's line items. -/
def pNP (p : Product) : String × String × ℚ :=
  (p.pid, p.name, p.price)

/-- All stocks of a store are non-negative. -/
def stocksNonneg (st : Store) : Prop :=
  ∀ p ∈ st, 0 ≤ p.stock

/-- A stored Order document together with its ObjectId. -/
structure StoredOrder where
  oid : String
  ord : Order
deriving Repr, DecidableEq

/-- Parse of the request `status` string against
`['pending', 'confirmed', 'delivered', 'cancelled']` (server.js:1479). -/
def statusOfString (s : String) : Option OrderStatus :=
  if s = "pending" then some .pending
  else if s = "confirmed" then some .confirmed
  else if s = "delivered" then some .delivered
  else if s = "cancelled" then some .cancelled
  else none

/-- Outcome of PUT /api/orders/:id/status. -/
inductive PutStatusOutcome where
  | badRequest
  | notFound
  | ok (o : Order)
deriving Repr, DecidableEq

/-- HTTP status code of a status-update outcome. -/
def PutStatusOutcome.http : PutStatusOutcome → Nat
  | .badRequest => 400
  | .notFound => 404
  | .ok _ => 200

/-- `Order.findById` over the Order collection (first id match). -/
def findOrder (oid : String) : List StoredOrder → Option Order
  | [] => none
  | s :: ss => if s.oid = oid then some s.ord else findOrder oid ss

/-- Persisting `order.save()` after a status change: the document with
the given id receives the new status. -/
def setOrderStatus (oid : String) (stt : OrderStatus) :
    List StoredOrder → List StoredOrder
  | [] => []
  | s :: ss =>
    if s.oid = oid then { s with ord := { s.ord with status := stt } } :: ss
    else s :: setOrderStatus oid stt ss

/-- The PUT /api/orders/:id/status handler (server.js:1474-1500):
reject an invalid id, a missing or out-of-enumeration status, a
missing order, and the delivered-to-pending transition; otherwise set
the status and save. -/
def putOrderStatus (oid : String) (reqStatus : Option String)
    (orders : List StoredOrder) : PutStatusOutcome × List StoredOrder :=
  if isValidObjectId oid = false then (.badRequest, orders)
  else
    match reqStatus with
    | none => (.badRequest, orders)
    | some s =>
      match statusOfString s with
      | none => (.badRequest, orders)
      | some newStatus =>
        match findOrder oid orders with
        | none => (.notFound, orders)
        | some o =>
          if o.status = OrderStatus.delivered ∧ s = "pending" then
            (.badRequest, orders)
          else
            (.ok { o with status := newStatus }, setOrderStatus oid newStatus orders)

/-- A Category document (categorySchema, server.js:895-900); the
description and timestamps are omitted. -/
structure Category where
  cid : String
  name : String
deriving Repr, DecidableEq

/-- Outcome of DELETE /api/categories/:id. -/
inductive DeleteCatOutcome where
  | badRequest
  | notFound
  | deleted
deriving Repr, DecidableEq

/-- HTTP status code of a category-deletion outcome. -/
def DeleteCatOutcome.http : DeleteCatOutcome → Nat
  | .badRequest => 400
  | .notFound => 404
  | .deleted => 200

/-- `Category.findById` (first id match). -/
def findCategory (cid : String) : List Category → Option Category
  | [] => none
  | c :: cs => if c.cid = cid then some c else findCategory cid cs

/-- `category.deleteOne()`: removes the document with the given id. -/
def removeCategory (cid : String) : List Category → List Category
  | [] => []
  | c :: cs => if c.cid = cid then cs else c :: removeCategory cid cs

/-- `Product.countDocuments({category: category.name})` (server.js:1231). -/
def countProducts (cname : String) (st : Store) : Nat :=
  (st.filter (fun p => p.category = cname)).length

/-- The DELETE /api/categories/:id handler (server.js:1225-1242): a
category referenced by any product is not deleted. -/
def deleteCategory (cid : String) (cats : List Category) (st : Store) :
    DeleteCatOutcome × List Category :=
  if isValidObjectId cid = false then (.badRequest, cats)
  else
    match findCategory cid cats with
    | none => (.notFound, cats)
    | some c =>
      if 0 < countProducts c.name st then (.badRequest, cats)
      else (.deleted, removeCategory cid cats)

/-- A numeric request-body field after `parseFloat`/`parseInt`: absent,
unparsable (`NaN`, which also covers a missing required field), or a
parsed value. -/
inductive NumField (α : Type) where
  | absent
  | nan
  | val (x : α)
deriving Repr, DecidableEq

/-- Whether the raw field was absent. -/
def NumField.isAbsent {α : Type} : NumField α → Bool
  | .absent => true
  | _ => false

/-- The POST /api/products handler (server.js:1273-1311), restricted to
the fields the claims concern (name, category, price, stock; image and
description omitted).  The body arrives as multipart form strings;
`priceF`/`stockF` model the `parseFloat`/`parseInt` results, `nan`
standing for any unparsable value.  Every 400 path returns `none` with
the store unchanged. -/
def postProducts (nameF categoryF : Option String) (priceF : NumField ℚ)
    (stockF : NumField Int) (cats : List Category) (st : Store)
    (newPid : String) : Option Product × Store :=
  if falsy nameF || priceF.isAbsent || falsy categoryF then (none, st)
  else
    match priceF, stockF with
    | .val pr, .val sk =>
      if pr < 0 then (none, st)
      else if sk < 0 then (none, st)
      else if (cats.filter (fun c => c.name = categoryF.getD "")).length = 0 then
        (none, st)
      else
        (some ⟨newPid, jsTrim (nameF.getD ""), pr, categoryF.getD "", sk⟩,
          st ++ [⟨newPid, jsTrim (nameF.getD ""), pr, categoryF.getD "", sk⟩])
    | _, _ => (none, st)

/-- `Product.findById` (first id match). -/
def findProduct (pid : String) : Store → Option Product
  | [] => none
  | p :: ps => if p.pid = pid then some p else findProduct pid ps

/-- Persisting `product.save()`: the document with the given id is
replaced by the updated one. -/
def saveProduct (pid : String) (p : Product) : Store → Store
  | [] => []
  | q :: qs => if q.pid = pid then p :: qs else q :: saveProduct pid p qs

/-- The price check of PUT /api/products/:id: present but `NaN` or
negative is a 400 (server.js:1323-1327). -/
def priceBad : NumField ℚ → Bool
  | .absent => false
  | .nan => true
  | .val x => decide (x < 0)

/-- The stock check of PUT /api/products/:id (server.js:1328-1332). -/
def stockBad : NumField Int → Bool
  | .absent => false
  | .nan => true
  | .val s => decide (s < 0)

/-- The PUT /api/products/:id handler (server.js:1313-1359), restricted
to name, price, stock and category.  Every early 400/404 return leaves
the store unchanged (the mongoose document is only persisted by the
final `save()`); success saves the field updates. -/
def putProducts (pid : String) (nameF : Option String) (priceF : NumField ℚ)
    (stockF : NumField Int) (categoryF : Option String)
    (cats : List Category) (st : Store) : Option Product × Store :=
  if isValidObjectId pid = false then (none, st)
  else
    match findProduct pid st with
    | none => (none, st)
    | some p0 =>
      let p1 := match nameF with
        | some n => { p0 with name := jsTrim n }
        | none => p0
      if priceBad priceF then (none, st)
      else
        let p2 := match priceF with
          | .val x => { p1 with price := x }
          | _ => p1
        if stockBad stockF then (none, st)
        else
          let p3 := match stockF with
            | .val s => { p2 with stock := s }
            | _ => p2
          match categoryF with
          | some c =>
            if (cats.filter (fun cc => cc.name = c)).length = 0 then (none, st)
            else
              (some { p3 with category := c },
                saveProduct pid { p3 with category := c } st)
          | none => (some p3, saveProduct pid p3 st)

/-- Category filter of GET /api/products:
`if (category && category !== 'all') filter.category = category`
(server.js:1252). -/
def catFilterOk (category : Option String) (p : Product) : Bool :=
  match category with
  | some c => if c ≠ "" ∧ c ≠ "all" then p.category == c else true
  | none => true

/-- Stock filter of GET /api/products:
`if (!all || all === 'false') filter.stock = {$gt: 0}` (server.js:1253). -/
def stockFilterOk (allq : Option String) (p : Product) : Bool :=
  match allq with
  | none => decide (0 < p.stock)
  | some a => if a = "" ∨ a = "false" then decide (0 < p.stock) else true

/-- The GET /api/products handler (server.js:1248-1259): the documents
matching both filters, in store order (the sort by creation time is
not modelled). -/
def getProducts (category allq : Option String) (st : Store) : Store :=
  st.filter (fun p => catFilterOk category p && stockFilterOk allq p)

/-- Fixture: product A with one unit in stock (ids are valid ObjectIds
by the 12-character rule). -/
def wProductA : Product := ⟨"paaaaaaaaaaa", "Soap", 5, "clean", 1⟩

/-- Fixture: product B that is out of stock. -/
def wProductB : Product := ⟨"pbbbbbbbbbbb", "Mop", 7, "clean", 0⟩

/-- Fixture: product C with four units in stock. -/
def wProductC : Product := ⟨"pccccccccccc", "Spray", 3, "clean", 4⟩

/-- Fixture: product A with three units (specification scenario 1). -/
def wProductA3 : Product := ⟨"paaaaaaaaaaa", "Soap", 5, "clean", 3⟩

/-- Fixture: product A after a decrement of one unit. -/
def wProductA0 : Product := ⟨"paaaaaaaaaaa", "Soap", 5, "clean", 0⟩

/-- Fixture: a line item requesting one unit of product A. -/
def wItemA1 : ReqItem := ⟨some "paaaaaaaaaaa", none, .num 1, none, none⟩

/-- Fixture: a line item requesting one unit of product B. -/
def wItemB1 : ReqItem := ⟨some "pbbbbbbbbbbb", none, .num 1, none, none⟩

/-- Fixture: a line item requesting two units of product A. -/
def wItemA2 : ReqItem := ⟨some "paaaaaaaaaaa", none, .num 2, none, none⟩

/-- Fixture: a line item requesting one unit of product C. -/
def wItemC1 : ReqItem := ⟨some "pccccccccccc", none, .num 1, none, none⟩

/-- Fixture: a line item for product C with an out-of-range quantity. -/
def wItemBadQty : ReqItem := ⟨some "pccccccccccc", none, .num 2000, none, none⟩

/-- Fixture: a line item with a malformed product id and an
out-of-range quantity. -/
def wItemBadRef : ReqItem := ⟨some "xyz", none, .num 2000, none, none⟩

/-- Fixture: a line item for product C with no quantity field. -/
def wItemNoQty : ReqItem := ⟨some "pccccccccccc", none, .missing, none, none⟩

/-- Fixture: a line item with a malformed product id and a valid
quantity. -/
def wItemBadRefOnly : ReqItem := ⟨some "xyz", none, .num 1, none, none⟩

/-- Fixture: product C after a decrement of one unit. -/
def wProductC3 : Product := ⟨"pccccccccccc", "Spray", 3, "clean", 3⟩

/-- Fixture: the order created by `wReqNoQty` on `[wProductC]`. -/
def wOrderNoQty : Order :=
  ⟨"Ali", "a@b.cd", "", "Cairo", [⟨"pccccccccccc", "Spray", 1, 3⟩], 3, .pending⟩

/-- Fixture request of specification scenario 2: one unit each of A
(stock 1) and B (stock 0). -/
def wReqFail : OrderReq :=
  ⟨some "Ali", some "a@b.cd", none, some "Cairo", some [wItemA1, wItemB1]⟩

/-- Fixture request of specification scenario 1: two units of A. -/
def wReqOk : OrderReq :=
  ⟨some "Ali", some "a@b.cd", none, some "Cairo", some [wItemA2]⟩

/-- Fixture request whose second item has an invalid quantity, after a
first item that decrements successfully. -/
def wReqBadQty : OrderReq :=
  ⟨some "Ali", some "a@b.cd", none, some "Cairo", some [wItemC1, wItemBadQty]⟩

/-- Fixture request whose only item has an invalid quantity. -/
def wReqBadQtyFirst : OrderReq :=
  ⟨some "Ali", some "a@b.cd", none, some "Cairo", some [wItemBadQty]⟩

/-- Fixture request whose only item has a malformed product reference
and an invalid quantity. -/
def wReqBadRef : OrderReq :=
  ⟨some "Ali", some "a@b.cd", none, some "Cairo", some [wItemBadRef]⟩

/-- Fixture request whose only item has a malformed product reference
and a valid quantity. -/
def wReqBadRefOnly : OrderReq :=
  ⟨some "Ali", some "a@b.cd", none, some "Cairo", some [wItemBadRefOnly]⟩

/-- Fixture request with 51 line items (specification scenario 4). -/
def wReq51 : OrderReq :=
  ⟨some "Ali", some "a@b.cd", none, some "Cairo",
    some (List.replicate 51 wItemC1)⟩

/-- Fixture request whose only item omits the quantity field. -/
def wReqNoQty : OrderReq :=
  ⟨some "Ali", some "a@b.cd", none, some "Cairo", some [wItemNoQty]⟩

/-- Fixture: the order created by `wReqOk` on `[wProductA3]`. -/
def wOrder1 : Order :=
  ⟨"Ali", "a@b.cd", "", "Cairo", [⟨"paaaaaaaaaaa", "Soap", 2, 5⟩], 10, .pending⟩

/-- Fixture: a delivered order (specification scenario 5). -/
def wOrderDelivered : Order :=
  ⟨"Bob", "b@c.de", "", "Giza", [], 0, .delivered⟩

/-- Fixture: the Order collection holding one delivered order. -/
def wStoredOrders : List StoredOrder := [⟨"oaaaaaaaaaaa", wOrderDelivered⟩]

/-- Fixture: the category referenced by the fixture products. -/
def wCategoryClean : Category := ⟨"caaaaaaaaaaa", "clean"⟩

end CleanStore

namespace CleanStore

section OpLemmas

theorem dec_none_store {pid : String} {q : Int} {st st2 : Store}
    (h : findOneAndUpdateDec pid q st = (none, st2)) : st2 = st := by
  induction st generalizing st2 with
  | nil =>
    simp only [findOneAndUpdateDec] at h
    injection h with h1 h2
    exact h2.symm
  | cons p ps ih =>
    by_cases hc : p.pid = pid ∧ q ≤ p.stock
    · simp [findOneAndUpdateDec, hc] at h
    · simp only [findOneAndUpdateDec, if_neg hc] at h
      injection h with h1 h2
      have h3 : (findOneAndUpdateDec pid q ps).2 = ps := ih (Prod.ext_iff.mpr ⟨h1, rfl⟩)
      rw [← h2, h3]

theorem dec_some_exists {pid : String} {q : Int} {st st1 : Store} {u : Product}
    (h : findOneAndUpdateDec pid q st = (some u, st1)) :
    ∃ p ∈ st, p.pid = pid ∧ q ≤ p.stock ∧ u = { p with stock := p.stock - q } ∧ u ∈ st1 := by
  induction st generalizing st1 with
  | nil => simp [findOneAndUpdateDec] at h
  | cons p ps ih =>
    by_cases hc : p.pid = pid ∧ q ≤ p.stock
    · simp only [findOneAndUpdateDec, if_pos hc] at h
      injection h with h1 h2
      injection h1 with h1
      exact ⟨p, List.mem_cons_self .., hc.1, hc.2, h1.symm,
        by rw [← h2, h1]; exact List.mem_cons_self ..⟩
    · simp only [findOneAndUpdateDec, if_neg hc] at h
      injection h with h1 h2
      obtain ⟨p', hp', hpid, hstock, hu, hmem⟩ := ih (Prod.ext_iff.mpr ⟨h1, rfl⟩)
      exact ⟨p', List.mem_cons_of_mem _ hp', hpid, hstock, hu,
        by rw [← h2]; exact List.mem_cons_of_mem _ hmem⟩

theorem dec_pInfo (pid : String) (q : Int) (st : Store) :
    ((findOneAndUpdateDec pid q st).2).map pInfo = st.map pInfo := by
  induction st with
  | nil => rfl
  | cons p ps ih =>
    by_cases hc : p.pid = pid ∧ q ≤ p.stock
    · simp [findOneAndUpdateDec, hc, pInfo]
    · simp [findOneAndUpdateDec, hc, ih]

theorem dec_some_pid_mem {pid : String} {q : Int} {st st1 : Store} {u : Product}
    (h : findOneAndUpdateDec pid q st = (some u, st1)) : pid ∈ st.map Product.pid := by
  obtain ⟨p, hp, hpid, -⟩ := dec_some_exists h
  exact List.mem_map.mpr ⟨p, hp, hpid⟩

theorem dec_nonneg {pid : String} {q : Int} {st : Store} (h : stocksNonneg st) :
    stocksNonneg (findOneAndUpdateDec pid q st).2 := by
  induction st with
  | nil => simpa [findOneAndUpdateDec] using h
  | cons p ps ih =>
    by_cases hc : p.pid = pid ∧ q ≤ p.stock
    · simp only [findOneAndUpdateDec, if_pos hc]
      intro x hx
      rcases List.mem_cons.mp hx with hx | hx
      · subst hx; simpa using hc.2
      · exact h x (List.mem_cons_of_mem _ hx)
    · simp only [findOneAndUpdateDec, if_neg hc]
      intro x hx
      rcases List.mem_cons.mp hx with hx | hx
      · subst hx; exact h x (List.mem_cons_self ..)
      · exact ih (fun y hy => h y (List.mem_cons_of_mem _ hy)) x hx

theorem inc_pInfo (pid : String) (q : Int) (st : Store) :
    (findByIdAndUpdateInc pid q st).map pInfo = st.map pInfo := by
  induction st with
  | nil => rfl
  | cons p ps ih =>
    by_cases hc : p.pid = pid
    · simp [findByIdAndUpdateInc, hc, pInfo]
    · simp [findByIdAndUpdateInc, hc, ih]

theorem inc_nonneg {pid : String} {q : Int} {st : Store} (hq : 0 ≤ q)
    (h : stocksNonneg st) : stocksNonneg (findByIdAndUpdateInc pid q st) := by
  induction st with
  | nil => simpa [findByIdAndUpdateInc] using h
  | cons p ps ih =>
    by_cases hc : p.pid = pid
    · simp only [findByIdAndUpdateInc, if_pos hc]
      intro x hx
      rcases List.mem_cons.mp hx with hx | hx
      · subst hx
        have := h p (List.mem_cons_self ..)
        simpa using add_nonneg this hq
      · exact h x (List.mem_cons_of_mem _ hx)
    · simp only [findByIdAndUpdateInc, if_neg hc]
      intro x hx
      rcases List.mem_cons.mp hx with hx | hx
      · subst hx; exact h x (List.mem_cons_self ..)
      · exact ih (fun y hy => h y (List.mem_cons_of_mem _ hy)) x hx

theorem inc_comm (a b : String) (qa qb : Int) (st : Store) :
    findByIdAndUpdateInc a qa (findByIdAndUpdateInc b qb st) =
      findByIdAndUpdateInc b qb (findByIdAndUpdateInc a qa st) := by
  induction st with
  | nil => rfl
  | cons p ps ih =>
    by_cases ha : p.pid = a
    · by_cases hb : p.pid = b
      · have hab : a = b := ha.symm.trans hb
        subst hab
        simp only [findByIdAndUpdateInc, if_pos ha]
        simp only [List.cons.injEq, Product.mk.injEq, true_and, and_true]
        omega
      · simp only [findByIdAndUpdateInc, if_pos ha, if_neg hb]
    · by_cases hb : p.pid = b
      · simp only [findByIdAndUpdateInc, if_pos hb, if_neg ha]
      · simp only [findByIdAndUpdateInc, if_neg ha, if_neg hb]
        simp only [findByIdAndUpdateInc, if_neg ha, if_neg hb, ih]

theorem pid_map_of_pInfo {st1 st2 : Store} (h : st1.map pInfo = st2.map pInfo) :
    st1.map Product.pid = st2.map Product.pid := by
  have : ∀ st : Store, st.map Product.pid = (st.map pInfo).map Prod.fst := by
    intro st; rw [List.map_map]; rfl
  rw [this, this, h]

theorem dec_inc_cancel {pid : String} {q : Int} {st st1 : Store} {u : Product}
    (hnd : (st.map Product.pid).Nodup)
    (h : findOneAndUpdateDec pid q st = (some u, st1)) :
    findByIdAndUpdateInc pid q st1 = st := by
  induction st generalizing st1 with
  | nil => simp [findOneAndUpdateDec] at h
  | cons p ps ih =>
    by_cases hc : p.pid = pid ∧ q ≤ p.stock
    · simp only [findOneAndUpdateDec, if_pos hc] at h
      obtain ⟨-, h2⟩ := Prod.mk.injEq .. ▸ h
      rw [← h2]
      simp only [findByIdAndUpdateInc, if_pos (show ({ p with stock := p.stock - q } : Product).pid = pid from hc.1)]
      congr 1
      cases p
      simp
    · simp only [findOneAndUpdateDec, if_neg hc] at h
      obtain ⟨h1, h2⟩ := Prod.mk.injEq .. ▸ h
      have hsome : findOneAndUpdateDec pid q ps = (some u, (findOneAndUpdateDec pid q ps).2) := by
        rw [Prod.ext_iff]; exact ⟨h1, rfl⟩
      by_cases hp : p.pid = pid
      · exfalso
        have hmem := dec_some_pid_mem hsome
        simp only [List.map_cons, List.nodup_cons] at hnd
        exact hnd.1 (hp ▸ hmem)
      · rw [← h2]
        simp only [findByIdAndUpdateInc, if_neg hp]
        rw [ih (List.nodup_cons.mp (by simpa using hnd)).2 hsome]

theorem rollback_nil (st : Store) : rollback [] st = st := rfl

theorem rollback_cons (d : String × Int) (ds : List (String × Int)) (st : Store) :
    rollback (d :: ds) st = rollback ds (findByIdAndUpdateInc d.1 d.2 st) := rfl

theorem rollback_append (ds : List (String × Int)) (a : String) (q : Int) (st : Store) :
    rollback (ds ++ [(a, q)]) st = findByIdAndUpdateInc a q (rollback ds st) := by
  simp [rollback, List.foldl_append]

theorem rollback_inc_comm (ds : List (String × Int)) (a : String) (q : Int) (st : Store) :
    rollback ds (findByIdAndUpdateInc a q st) =
      findByIdAndUpdateInc a q (rollback ds st) := by
  induction ds generalizing st with
  | nil => rfl
  | cons d ds ih =>
    rw [rollback_cons, rollback_cons, inc_comm, ih]

theorem rollback_pInfo (ds : List (String × Int)) (st : Store) :
    (rollback ds st).map pInfo = st.map pInfo := by
  induction ds generalizing st with
  | nil => rfl
  | cons d ds ih => rw [rollback_cons, ih, inc_pInfo]

theorem rollback_nonneg {ds : List (String × Int)} {st : Store}
    (hq : ∀ d ∈ ds, 0 ≤ d.2) (h : stocksNonneg st) : stocksNonneg (rollback ds st) := by
  induction ds generalizing st with
  | nil => exact h
  | cons d ds ih =>
    rw [rollback_cons]
    exact ih (fun x hx => hq x (List.mem_cons_of_mem _ hx))
      (inc_nonneg (hq d (List.mem_cons_self ..)) h)

end OpLemmas

section LoopLemmas

theorem pNP_map_of_pInfo {st1 st2 : Store} (h : st1.map pInfo = st2.map pInfo) :
    st1.map pNP = st2.map pNP := by
  have hm : ∀ st : Store, st.map pNP =
      (st.map pInfo).map (fun x => (x.1, x.2.1, x.2.2.1)) := by
    intro st; rw [List.map_map]; rfl
  rw [hm, hm, h]

theorem qtyOk_num {q : ℚ} (h : qtyOk q = true) : q.den = 1 ∧ 1 ≤ q.num := by
  simp only [qtyOk, Bool.and_eq_true, beq_iff_eq, decide_eq_true_eq] at h
  obtain ⟨⟨hden, h1⟩, -⟩ := h
  refine ⟨hden, ?_⟩
  have hq : (q.num : ℚ) = q := by
    conv_rhs => rw [← Rat.num_div_den q]
    rw [hden]
    simp
  rw [← hq] at h1
  exact_mod_cast h1

theorem bool_true_of_not_false {b : Bool} (h : ¬ b = false) : b = true := by
  cases b
  · exact absurd rfl h
  · rfl

theorem reserveLoop_inl_store {its : List ReqItem} :
    ∀ {st : Store} {tr : List StockMut} {decs : List (String × Int)}
      {acc : List OrderItem} {total : ℚ} {e : OrderError},
    (st.map Product.pid).Nodup →
    (reserveLoop st tr decs acc total its).res = Sum.inl e →
    (reserveLoop st tr decs acc total its).store = rollback decs st := by
  induction its with
  | nil =>
    intro st tr decs acc total e hnd h
    simp [reserveLoop] at h
  | cons item rest ih =>
    intro st tr decs acc total e hnd h
    by_cases hq : qtyOk (coerceQty item.quantity) = false
    · simp only [reserveLoop, if_pos hq]
    · simp only [reserveLoop, if_neg hq] at h ⊢
      by_cases hv : isValidObjectId item.prodId = false
      · simp only [if_pos hv]
      · simp only [if_neg hv] at h ⊢
        rcases hdec : findOneAndUpdateDec item.prodId (coerceQty item.quantity).num st
          with ⟨r, st2⟩
        rcases r with - | u
        · rw [hdec] at h
          show rollback decs st2 = rollback decs st
          rw [dec_none_store hdec]
        · rw [hdec] at h
          have h' : (reserveLoop st2
              (tr ++ [StockMut.dec item.prodId (coerceQty item.quantity).num])
              (decs ++ [(item.prodId, (coerceQty item.quantity).num)])
              (acc ++ [⟨u.pid, u.name, coerceQty item.quantity, u.price⟩])
              (total + u.price * coerceQty item.quantity) rest).res = Sum.inl e := h
          have hpids : st2.map Product.pid = st.map Product.pid :=
            pid_map_of_pInfo (by
              have := dec_pInfo item.prodId (coerceQty item.quantity).num st
              rwa [hdec] at this)
          have hstep := ih (hpids ▸ hnd) h'
          rw [rollback_append, ← rollback_inc_comm, dec_inc_cancel hnd hdec] at hstep
          exact hstep

theorem reserveLoop_inr_spec {its : List ReqItem} :
    ∀ {st : Store} {tr : List StockMut} {decs : List (String × Int)}
      {acc : List OrderItem} {total : ℚ} {vIt : List OrderItem} {tot : ℚ},
    (reserveLoop st tr decs acc total its).res = Sum.inr (vIt, tot) →
    ∃ newIt : List OrderItem, vIt = acc ++ newIt ∧ tot = total + itemsTotal newIt ∧
      ∀ oit ∈ newIt, (oit.productId, oit.name, oit.price) ∈ st.map pNP ∧
        ∃ it ∈ its, oit.quantity = coerceQty it.quantity := by
  induction its with
  | nil =>
    intro st tr decs acc total vIt tot h
    simp only [reserveLoop] at h
    injection h with h
    injection h with h1 h2
    exact ⟨[], by simp [h1], by simp [itemsTotal, h2], by simp⟩
  | cons item rest ih =>
    intro st tr decs acc total vIt tot h
    by_cases hq : qtyOk (coerceQty item.quantity) = false
    · simp [reserveLoop, if_pos hq] at h
    · simp only [reserveLoop, if_neg hq] at h
      by_cases hv : isValidObjectId item.prodId = false
      · simp [if_pos hv] at h
      · simp only [if_neg hv] at h
        rcases hdec : findOneAndUpdateDec item.prodId (coerceQty item.quantity).num st
          with ⟨r, st2⟩
        rcases r with - | u
        · rw [hdec] at h
          exact absurd h (by simp)
        · rw [hdec] at h
          have h' : (reserveLoop st2
              (tr ++ [StockMut.dec item.prodId (coerceQty item.quantity).num])
              (decs ++ [(item.prodId, (coerceQty item.quantity).num)])
              (acc ++ [⟨u.pid, u.name, coerceQty item.quantity, u.price⟩])
              (total + u.price * coerceQty item.quantity) rest).res = Sum.inr (vIt, tot) := h
          obtain ⟨newIt, hv1, hv2, hv3⟩ := ih h'
          have hmemu : u ∈ st2 := by
            obtain ⟨p, -, -, -, -, hm⟩ := dec_some_exists hdec
            exact hm
          have hpnp : st2.map pNP = st.map pNP :=
            pNP_map_of_pInfo (by
              have := dec_pInfo item.prodId (coerceQty item.quantity).num st
              rwa [hdec] at this)
          refine ⟨⟨u.pid, u.name, coerceQty item.quantity, u.price⟩ :: newIt, ?_, ?_, ?_⟩
          · rw [hv1]; simp
          · rw [hv2]; simp only [itemsTotal, List.map_cons, List.sum_cons]; ring
          · intro oit hoit
            rcases List.mem_cons.mp hoit with hoit | hoit
            · subst hoit
              constructor
              · rw [← hpnp]
                exact List.mem_map.mpr ⟨u, hmemu, rfl⟩
              · exact ⟨item, List.mem_cons_self .., rfl⟩
            · obtain ⟨hm1, it, hit, hm2⟩ := hv3 oit hoit
              exact ⟨hpnp ▸ hm1, it, List.mem_cons_of_mem _ hit, hm2⟩

theorem reserveLoop_inr_all {its : List ReqItem} :
    ∀ {st : Store} {tr : List StockMut} {decs : List (String × Int)}
      {acc : List OrderItem} {total : ℚ} {x : List OrderItem × ℚ},
    (reserveLoop st tr decs acc total its).res = Sum.inr x →
    ∀ it ∈ its, qtyOk (coerceQty it.quantity) = true ∧ isValidObjectId it.prodId = true := by
  induction its with
  | nil => intro st tr decs acc total x h it hit; simp at hit
  | cons item rest ih =>
    intro st tr decs acc total x h it hit
    by_cases hq : qtyOk (coerceQty item.quantity) = false
    · simp [reserveLoop, if_pos hq] at h
    · simp only [reserveLoop, if_neg hq] at h
      by_cases hv : isValidObjectId item.prodId = false
      · simp [if_pos hv] at h
      · simp only [if_neg hv] at h
        rcases hdec : findOneAndUpdateDec item.prodId (coerceQty item.quantity).num st
          with ⟨r, st2⟩
        rcases r with - | u
        · rw [hdec] at h
          exact absurd h (by simp)
        · rw [hdec] at h
          have h' : (reserveLoop st2
              (tr ++ [StockMut.dec item.prodId (coerceQty item.quantity).num])
              (decs ++ [(item.prodId, (coerceQty item.quantity).num)])
              (acc ++ [⟨u.pid, u.name, coerceQty item.quantity, u.price⟩])
              (total + u.price * coerceQty item.quantity) rest).res = Sum.inr x := h
          rcases List.mem_cons.mp hit with hit | hit
          · subst hit
            exact ⟨bool_true_of_not_false hq, bool_true_of_not_false hv⟩
          · exact ih h' it hit

theorem reserveLoop_inl_ref {its : List ReqItem} :
    ∀ {st : Store} {tr : List StockMut} {decs : List (String × Int)}
      {acc : List OrderItem} {total : ℚ} {pid : String},
    (reserveLoop st tr decs acc total its).res = Sum.inl (.invalidReference pid) →
    isValidObjectId pid = false := by
  induction its with
  | nil => intro st tr decs acc total pid h; simp [reserveLoop] at h
  | cons item rest ih =>
    intro st tr decs acc total pid h
    by_cases hq : qtyOk (coerceQty item.quantity) = false
    · simp [reserveLoop, if_pos hq] at h
    · simp only [reserveLoop, if_neg hq] at h
      by_cases hv : isValidObjectId item.prodId = false
      · simp only [if_pos hv] at h
        injection h with h
        injection h with h
        exact h ▸ hv
      · simp only [if_neg hv] at h
        rcases hdec : findOneAndUpdateDec item.prodId (coerceQty item.quantity).num st
          with ⟨r, st2⟩
        rcases r with - | u
        · rw [hdec] at h
          exact absurd h (by simp)
        · rw [hdec] at h
          exact ih h

theorem reserveLoop_inl_trace {its : List ReqItem} :
    ∀ {st : Store} {tr : List StockMut} {decs : List (String × Int)}
      {acc : List OrderItem} {total : ℚ} {e : OrderError},
    (∀ pid q, StockMut.dec pid q ∈ tr → (pid, q) ∈ decs) →
    (reserveLoop st tr decs acc total its).res = Sum.inl e →
    ∀ pid q, StockMut.dec pid q ∈ (reserveLoop st tr decs acc total its).trace →
      StockMut.inc pid q ∈ (reserveLoop st tr decs acc total its).trace := by
  induction its with
  | nil => intro st tr decs acc total e hinv h; simp [reserveLoop] at h
  | cons item rest ih =>
    intro st tr decs acc total e hinv h
    have hroll : ∀ pid q, StockMut.dec pid q ∈ rollTrace tr decs →
        StockMut.inc pid q ∈ rollTrace tr decs := by
      intro pid q hm
      rcases List.mem_append.mp hm with hm | hm
      · exact List.mem_append_right _
          (List.mem_map.mpr ⟨(pid, q), hinv pid q hm, rfl⟩)
      · obtain ⟨d, -, hd⟩ := List.mem_map.mp hm
        exact absurd hd (by simp)
    by_cases hq : qtyOk (coerceQty item.quantity) = false
    · simp only [reserveLoop, if_pos hq]
      exact hroll
    · simp only [reserveLoop, if_neg hq] at h ⊢
      by_cases hv : isValidObjectId item.prodId = false
      · simp only [if_pos hv]
        exact hroll
      · simp only [if_neg hv] at h ⊢
        rcases hdec : findOneAndUpdateDec item.prodId (coerceQty item.quantity).num st
          with ⟨r, st2⟩
        rcases r with - | u
        · rw [hdec] at h
          intro pid q hm
          exact hroll pid q hm
        · rw [hdec] at h
          have h' : (reserveLoop st2
              (tr ++ [StockMut.dec item.prodId (coerceQty item.quantity).num])
              (decs ++ [(item.prodId, (coerceQty item.quantity).num)])
              (acc ++ [⟨u.pid, u.name, coerceQty item.quantity, u.price⟩])
              (total + u.price * coerceQty item.quantity) rest).res = Sum.inl e := h
          have hinv' : ∀ pid q,
              StockMut.dec pid q ∈ tr ++ [StockMut.dec item.prodId (coerceQty item.quantity).num] →
              (pid, q) ∈ decs ++ [(item.prodId, (coerceQty item.quantity).num)] := by
            intro pid q hm
            rcases List.mem_append.mp hm with hm | hm
            · exact List.mem_append_left _ (hinv pid q hm)
            · simp only [List.mem_singleton] at hm
              injection hm with hm1 hm2
              subst hm1; subst hm2
              exact List.mem_append_right _ (List.mem_singleton.mpr rfl)
          exact ih hinv' h'

theorem reserveLoop_inr_trace {its : List ReqItem} :
    ∀ {st : Store} {tr : List StockMut} {decs : List (String × Int)}
      {acc : List OrderItem} {total : ℚ} {x : List OrderItem × ℚ},
    (reserveLoop st tr decs acc total its).res = Sum.inr x →
    ∀ m ∈ (reserveLoop st tr decs acc total its).trace,
      m ∈ tr ∨ ∃ it ∈ its, m = StockMut.dec it.prodId (coerceQty it.quantity).num := by
  induction its with
  | nil =>
    intro st tr decs acc total x h m hm
    exact Or.inl hm
  | cons item rest ih =>
    intro st tr decs acc total x h m hm
    by_cases hq : qtyOk (coerceQty item.quantity) = false
    · simp [reserveLoop, if_pos hq] at h
    · simp only [reserveLoop, if_neg hq] at h hm
      by_cases hv : isValidObjectId item.prodId = false
      · simp [if_pos hv] at h
      · simp only [if_neg hv] at h hm
        rcases hdec : findOneAndUpdateDec item.prodId (coerceQty item.quantity).num st
          with ⟨r, st2⟩
        rcases r with - | u
        · rw [hdec] at h
          exact absurd h (by simp)
        · rw [hdec] at h hm
          have h' : (reserveLoop st2
              (tr ++ [StockMut.dec item.prodId (coerceQty item.quantity).num])
              (decs ++ [(item.prodId, (coerceQty item.quantity).num)])
              (acc ++ [⟨u.pid, u.name, coerceQty item.quantity, u.price⟩])
              (total + u.price * coerceQty item.quantity) rest).res = Sum.inr x := h
          have hm' : m ∈ (reserveLoop st2
              (tr ++ [StockMut.dec item.prodId (coerceQty item.quantity).num])
              (decs ++ [(item.prodId, (coerceQty item.quantity).num)])
              (acc ++ [⟨u.pid, u.name, coerceQty item.quantity, u.price⟩])
              (total + u.price * coerceQty item.quantity) rest).trace := hm
          rcases ih h' m hm' with hmem | ⟨it, hit, heq⟩
          · rcases List.mem_append.mp hmem with hmem | hmem
            · exact Or.inl hmem
            · exact Or.inr ⟨item, List.mem_cons_self ..,
                List.mem_singleton.mp hmem⟩
          · exact Or.inr ⟨it, List.mem_cons_of_mem _ hit, heq⟩

theorem reserveLoop_nonneg {its : List ReqItem} :
    ∀ {st : Store} {tr : List StockMut} {decs : List (String × Int)}
      {acc : List OrderItem} {total : ℚ},
    stocksNonneg st → (∀ d ∈ decs, 0 ≤ d.2) →
    stocksNonneg (reserveLoop st tr decs acc total its).store := by
  induction its with
  | nil => intro st tr decs acc total hst hdq; exact hst
  | cons item rest ih =>
    intro st tr decs acc total hst hdq
    by_cases hq : qtyOk (coerceQty item.quantity) = false
    · simp only [reserveLoop, if_pos hq]
      exact rollback_nonneg hdq hst
    · simp only [reserveLoop, if_neg hq]
      by_cases hv : isValidObjectId item.prodId = false
      · simp only [if_pos hv]
        exact rollback_nonneg hdq hst
      · simp only [if_neg hv]
        rcases hdec : findOneAndUpdateDec item.prodId (coerceQty item.quantity).num st
          with ⟨r, st2⟩
        have hst2 : stocksNonneg st2 := by
          have := @dec_nonneg item.prodId (coerceQty item.quantity).num st hst
          rwa [hdec] at this
        rcases r with - | u
        · exact rollback_nonneg hdq hst2
        · show stocksNonneg (reserveLoop st2
            (tr ++ [StockMut.dec item.prodId (coerceQty item.quantity).num])
            (decs ++ [(item.prodId, (coerceQty item.quantity).num)])
            (acc ++ [⟨u.pid, u.name, coerceQty item.quantity, u.price⟩])
            (total + u.price * coerceQty item.quantity) rest).store
          refine ih hst2 ?_
          intro d hd
          rcases List.mem_append.mp hd with hd | hd
          · exact hdq d hd
          · have hd' := List.mem_singleton.mp hd
            subst hd'
            have := (qtyOk_num (bool_true_of_not_false hq)).2
            simpa using le_trans Int.one_nonneg this

end LoopLemmas

section HandlerLemmas

theorem bool_false_of_not_true {b : Bool} (h : ¬ b = true) : b = false := by
  cases b
  · rfl
  · exact absurd rfl h

theorem postOrders_char (req : OrderReq) (st : Store) (orders : List Order) :
    (∃ e : OrderError, e.isValidation = true ∧ e ≠ OrderError.badQuantity ∧
      postOrders req st orders = ⟨.badRequest e, st, orders, []⟩) ∨
    (∃ its : List ReqItem, req.items = some its ∧
      falsy req.customerName = false ∧ falsy req.customerEmail = false ∧
      falsy req.address = false ∧ emailOk (req.customerEmail.getD "") = true ∧
      0 < its.length ∧ its.length ≤ 50 ∧
      postOrders req st orders = loopOutcomeRes req st orders its) := by
  by_cases h1 : (falsy req.customerName || falsy req.customerEmail || falsy req.address) = true
  · exact Or.inl ⟨.missingFields, rfl, by simp, by simp [postOrders, h1]⟩
  · have h1' := bool_false_of_not_true h1
    simp only [Bool.or_eq_false_iff] at h1'
    obtain ⟨⟨hn, he⟩, ha⟩ := h1'
    by_cases h2 : emailOk (req.customerEmail.getD "") = false
    · exact Or.inl ⟨.badEmail, rfl, by simp, by simp [postOrders, hn, he, ha, h2]⟩
    · have h2' := bool_true_of_not_false h2
      rcases hits : req.items with - | its
      · exact Or.inl ⟨.noItems, rfl, by simp,
          by simp [postOrders, hn, he, ha, h2', hits]⟩
      · by_cases h4 : its.length = 0
        · exact Or.inl ⟨.noItems, rfl, by simp,
            by simp [postOrders, hn, he, ha, h2', hits, h4]⟩
        · by_cases h5 : 50 < its.length
          · exact Or.inl ⟨.tooManyItems, rfl, by simp,
              by simp [postOrders, hn, he, ha, h2', hits, h4, h5]⟩
          · refine Or.inr ⟨its, rfl, hn, he, ha, h2', Nat.pos_of_ne_zero h4,
              Nat.le_of_not_lt h5, ?_⟩
            simp only [postOrders, hn, he, ha, h2', hits, h4, h5]
            simp [loopOutcomeRes]

theorem postOrders_badRequest {req : OrderReq} {st : Store} {orders : List Order}
    {e : OrderError} (hnd : (st.map Product.pid).Nodup)
    (h : (postOrders req st orders).outcome = .badRequest e) :
    (postOrders req st orders).store = st ∧
      (postOrders req st orders).orders = orders := by
  rcases postOrders_char req st orders with ⟨e', -, -, heq⟩ | ⟨its, -, -, -, -, -, -, -, heq⟩
  · rw [heq]
    exact ⟨rfl, rfl⟩
  · rw [heq] at h ⊢
    rcases hr : (reserveLoop st [] [] [] 0 its).res with e2 | ⟨vIt, tot⟩
    · have hstore := reserveLoop_inl_store hnd hr
      simp only [loopOutcomeRes, hr]
      rw [rollback_nil] at hstore
      exact ⟨hstore, trivial⟩
    · simp only [loopOutcomeRes, hr] at h
      simp at h

theorem postOrders_dec_inc {req : OrderReq} {st : Store} {orders : List Order}
    {e : OrderError} (h : (postOrders req st orders).outcome = .badRequest e) :
    ∀ pid q, StockMut.dec pid q ∈ (postOrders req st orders).trace →
      StockMut.inc pid q ∈ (postOrders req st orders).trace := by
  rcases postOrders_char req st orders with ⟨e', -, -, heq⟩ | ⟨its, -, -, -, -, -, -, -, heq⟩
  · rw [heq]
    intro pid q hm
    simp at hm
  · rw [heq] at h ⊢
    rcases hr : (reserveLoop st [] [] [] 0 its).res with e2 | ⟨vIt, tot⟩
    · simp only [loopOutcomeRes, hr]
      exact reserveLoop_inl_trace (by simp) hr
    · simp only [loopOutcomeRes, hr] at h
      simp at h

theorem postOrders_created_spec {req : OrderReq} {st : Store} {orders : List Order}
    {o : Order} {st' : Store} {ords' : List Order} {tr : List StockMut}
    (h : postOrders req st orders = ⟨.created o, st', ords', tr⟩) :
    ords' = orders ++ [o] ∧ o.status = .pending ∧
    o.totalAmount = round2 (itemsTotal o.items) ∧
    (∃ its : List ReqItem, req.items = some its ∧
      (∀ oit ∈ o.items, (oit.productId, oit.name, oit.price) ∈ st.map pNP ∧
        ∃ it ∈ its, oit.quantity = coerceQty it.quantity) ∧
      (∀ it ∈ its, qtyOk (coerceQty it.quantity) = true ∧
        isValidObjectId it.prodId = true) ∧
      (∀ m ∈ tr, ∃ it ∈ its, m = StockMut.dec it.prodId (coerceQty it.quantity).num)) := by
  rcases postOrders_char req st orders with ⟨e', -, -, heq⟩ | ⟨its, hits, -, -, -, -, -, -, heq⟩
  · rw [heq] at h
    injection h with h1
    exact absurd h1 (by simp)
  · rw [heq] at h
    rcases hr : (reserveLoop st [] [] [] 0 its).res with e2 | ⟨vIt, tot⟩
    · simp only [loopOutcomeRes, hr] at h
      injection h with h1
      exact absurd h1 (by simp)
    · simp only [loopOutcomeRes, hr] at h
      injection h with h1 h2 h3 h4
      injection h1 with h1
      obtain ⟨newIt, hn1, hn2, hn3⟩ := reserveLoop_inr_spec hr
      have hitems : o.items = newIt := by
        rw [← h1]
        simpa [mkOrder] using hn1
      refine ⟨?_, ?_, ?_, its, hits, ?_, reserveLoop_inr_all hr, ?_⟩
      · rw [← h3, ← h1]
      · rw [← h1]; rfl
      · rw [← h1]
        show round2 tot = round2 (itemsTotal ((mkOrder req vIt tot).items))
        have : (mkOrder req vIt tot).items = vIt := rfl
        rw [this, hn1, hn2]
        simp only [List.nil_append] at hn1 ⊢
        rw [show (0 : ℚ) + itemsTotal newIt = itemsTotal newIt from by ring]
      · intro oit hoit
        rw [hitems] at hoit
        exact hn3 oit hoit
      · intro m hm
        rw [← h4] at hm
        rcases reserveLoop_inr_trace hr m hm with hmem | hx
        · simp at hmem
        · exact hx

end HandlerLemmas

section AuxLemmas

theorem findOrder_setOrderStatus (oid : String) (stt : OrderStatus)
    (orders : List StoredOrder) :
    findOrder oid (setOrderStatus oid stt orders) =
      (findOrder oid orders).map (fun o => { o with status := stt }) := by
  induction orders with
  | nil => rfl
  | cons s ss ih =>
    by_cases hc : s.oid = oid
    · simp [findOrder, setOrderStatus, hc]
    · simp [findOrder, setOrderStatus, hc, ih]

theorem findProduct_mem {pid : String} {st : Store} {p : Product}
    (h : findProduct pid st = some p) : p ∈ st := by
  induction st with
  | nil => simp [findProduct] at h
  | cons q qs ih =>
    by_cases hc : q.pid = pid
    · simp only [findProduct, if_pos hc] at h
      injection h with h
      exact h ▸ List.mem_cons_self ..
    · simp only [findProduct, if_neg hc] at h
      exact List.mem_cons_of_mem _ (ih h)

theorem saveProduct_nonneg {pid : String} {p : Product} {st : Store}
    (hp : 0 ≤ p.stock) (h : stocksNonneg st) :
    stocksNonneg (saveProduct pid p st) := by
  induction st with
  | nil => simpa [saveProduct] using h
  | cons q qs ih =>
    by_cases hc : q.pid = pid
    · simp only [saveProduct, if_pos hc]
      intro x hx
      rcases List.mem_cons.mp hx with hx | hx
      · exact hx ▸ hp
      · exact h x (List.mem_cons_of_mem _ hx)
    · simp only [saveProduct, if_neg hc]
      intro x hx
      rcases List.mem_cons.mp hx with hx | hx
      · exact hx ▸ h q (List.mem_cons_self ..)
      · exact ih (fun y hy => h y (List.mem_cons_of_mem _ hy)) x hx

theorem countProducts_pos_iff (cname : String) (st : Store) :
    0 < countProducts cname st ↔ ∃ p ∈ st, p.category = cname := by
  rw [countProducts, List.length_pos]
  constructor
  · intro h
    rcases List.exists_mem_of_ne_nil _ h with ⟨p, hp⟩
    have hm := List.mem_filter.mp hp
    exact ⟨p, hm.1, by simpa using hm.2⟩
  · rintro ⟨p, hp, hc⟩ hnil
    have hm : p ∈ st.filter (fun p => decide (p.category = cname)) :=
      List.mem_filter.mpr ⟨hp, by simpa using hc⟩
    rw [hnil] at hm
    simp at hm

end AuxLemmas

section Claims

/-- C1: Atomicity under failure of order placement.  Whenever POST
/api/orders fails with HTTP 400 — in particular when a line item fails
its quantity, reference or guarded-stock check — no Order record is
created, the final Product store equals the pre-request store (every
decremented product's stock is restored to its pre-request value), and
every decrement recorded in the mutation trace is matched by a
compensating increment of the same quantity.  The hypothesis is the
uniqueness of MongoDB `_id` values in the Product collection. -/
theorem order_failure_atomicity (req : OrderReq) (st : Store)
    (orders : List Order) (e : OrderError)
    (hnd : (st.map Product.pid).Nodup)
    (h : (postOrders req st orders).outcome = .badRequest e) :
    (postOrders req st orders).store = st ∧
    (postOrders req st orders).orders = orders ∧
    ∀ pid q, StockMut.dec pid q ∈ (postOrders req st orders).trace →
      StockMut.inc pid q ∈ (postOrders req st orders).trace :=
  ⟨(postOrders_badRequest hnd h).1, (postOrders_badRequest hnd h).2,
    postOrders_dec_inc h⟩

/-- Witness for C1, specification scenario 2: A has stock 1, B stock 0,
one unit of each is ordered; the request fails with the
insufficient-stock error naming B, A's stock is compensated back, and
no order is created. -/
theorem order_failure_atomicity_witness :
    ([wProductA, wProductB].map Product.pid).Nodup ∧
    (postOrders wReqFail [wProductA, wProductB] []).outcome =
      .badRequest (.insufficientStock "pbbbbbbbbbbb") ∧
    (postOrders wReqFail [wProductA, wProductB] []).store = [wProductA, wProductB] ∧
    (postOrders wReqFail [wProductA, wProductB] []).orders = [] ∧
    ∀ pid q,
      StockMut.dec pid q ∈ (postOrders wReqFail [wProductA, wProductB] []).trace →
      StockMut.inc pid q ∈ (postOrders wReqFail [wProductA, wProductB] []).trace := by
  have h := order_failure_atomicity wReqFail [wProductA, wProductB] []
    (.insufficientStock "pbbbbbbbbbbb")
    (by with_unfolding_all decide) (by with_unfolding_all decide)
  exact ⟨by with_unfolding_all decide, by with_unfolding_all decide,
    h.1, h.2.1, h.2.2⟩

/-- C2: Success postcondition of order placement.  When every guarded
decrement of a POST /api/orders request succeeds, exactly one Order is
appended, with status pending; every persisted line item's product id,
name and price come from a product record of the store (so any
client-supplied name or price in the request is ignored: the request's
`name`/`price` fields never reach the persisted items); and the
persisted total equals the sum of captured price times quantity,
rounded to two decimals. -/
theorem order_success_postcondition (req : OrderReq) (st : Store)
    (orders : List Order) (o : Order) (st' : Store) (ords' : List Order)
    (tr : List StockMut)
    (h : postOrders req st orders = ⟨.created o, st', ords', tr⟩) :
    ords' = orders ++ [o] ∧ o.status = .pending ∧
    (∀ oit ∈ o.items, ∃ p ∈ st, p.pid = oit.productId ∧ p.name = oit.name ∧
      p.price = oit.price) ∧
    o.totalAmount = round2 (itemsTotal o.items) := by
  obtain ⟨h1, h2, h3, its, hits, h4, -, -⟩ := postOrders_created_spec h
  refine ⟨h1, h2, ?_, h3⟩
  intro oit hoit
  obtain ⟨hm, -⟩ := h4 oit hoit
  obtain ⟨p, hp, hpe⟩ := List.mem_map.mp hm
  simp only [pNP, Prod.mk.injEq] at hpe
  exact ⟨p, hp, hpe.1, hpe.2.1, hpe.2.2⟩

/-- Witness for C2, specification scenario 1: A has stock 3 and price
5, two units are ordered; the order is created with captured name and
price, total 10 and status pending. -/
theorem order_success_postcondition_witness :
    postOrders wReqOk [wProductA3] [] =
      ⟨.created wOrder1, [wProductA], [wOrder1], [.dec "paaaaaaaaaaa" 2]⟩ ∧
    [wOrder1] = [] ++ [wOrder1] ∧ wOrder1.status = .pending ∧
    (∀ oit ∈ wOrder1.items, ∃ p ∈ [wProductA3], p.pid = oit.productId ∧
      p.name = oit.name ∧ p.price = oit.price) ∧
    wOrder1.totalAmount = round2 (itemsTotal wOrder1.items) := by
  have h := order_success_postcondition wReqOk [wProductA3] [] wOrder1
    [wProductA] [wOrder1] [.dec "paaaaaaaaaaa" 2] (by with_unfolding_all decide)
  exact ⟨by with_unfolding_all decide, h.1, h.2.1, h.2.2.1, h.2.2.2⟩

/-- C3: Stock non-negativity invariant.  Order placement (guarded
decrements plus compensating increments), product creation and product
update all preserve non-negativity of every product's stock; and the
reservation decrement of quantity q applies only to a product whose
current stock is at least q, guard and decrement evaluated in the one
conditional update `findOneAndUpdateDec`. -/
theorem stock_nonneg_invariant :
    (∀ (req : OrderReq) (st : Store) (orders : List Order),
      stocksNonneg st → stocksNonneg (postOrders req st orders).store) ∧
    (∀ (nameF categoryF : Option String) (priceF : NumField ℚ)
      (stockF : NumField Int) (cats : List Category) (st : Store) (newPid : String),
      stocksNonneg st →
      stocksNonneg (postProducts nameF categoryF priceF stockF cats st newPid).2) ∧
    (∀ (pid : String) (nameF : Option String) (priceF : NumField ℚ)
      (stockF : NumField Int) (categoryF : Option String)
      (cats : List Category) (st : Store),
      stocksNonneg st →
      stocksNonneg (putProducts pid nameF priceF stockF categoryF cats st).2) ∧
    (∀ (pid : String) (q : Int) (st st1 : Store) (u : Product),
      findOneAndUpdateDec pid q st = (some u, st1) →
      ∃ p ∈ st, p.pid = pid ∧ q ≤ p.stock ∧ u = { p with stock := p.stock - q }) := by
  refine ⟨?_, ?_, ?_, ?_⟩
  · intro req st orders hst
    rcases postOrders_char req st orders with ⟨e, -, -, heq⟩ |
      ⟨its, -, -, -, -, -, -, -, heq⟩
    · rw [heq]; exact hst
    · rw [heq]
      have hsame : (loopOutcomeRes req st orders its).store =
          (reserveLoop st [] [] [] 0 its).store := by
        rcases hr : (reserveLoop st [] [] [] 0 its).res with e | ⟨vIt, tot⟩ <;>
          simp [loopOutcomeRes, hr]
      rw [hsame]
      exact reserveLoop_nonneg hst (by simp)
  · intro nameF categoryF priceF stockF cats st newPid hst
    by_cases h1 : (falsy nameF || priceF.isAbsent || falsy categoryF) = true
    · simp only [postProducts, if_pos h1]; exact hst
    · simp only [postProducts, if_neg h1]
      rcases priceF with - | - | pr <;> rcases stockF with - | - | sk <;>
        try exact hst
      by_cases h2 : pr < 0
      · simp only [if_pos h2]; exact hst
      · simp only [if_neg h2]
        by_cases h3 : sk < 0
        · simp only [if_pos h3]; exact hst
        · simp only [if_neg h3]
          by_cases h4 : (cats.filter (fun c => c.name = categoryF.getD "")).length = 0
          · simp only [if_pos h4]; exact hst
          · simp only [if_neg h4]
            intro x hx
            rcases List.mem_append.mp hx with hx | hx
            · exact hst x hx
            · have hx' := List.mem_singleton.mp hx
              subst hx'
              simpa using Int.not_lt.mp h3
  · intro pid nameF priceF stockF categoryF cats st hst
    by_cases h1 : isValidObjectId pid = false
    · simp only [putProducts, if_pos h1]; exact hst
    · simp only [putProducts, if_neg h1]
      rcases hf : findProduct pid st with - | p0
      · exact hst
      · have hp0 : 0 ≤ p0.stock := hst p0 (findProduct_mem hf)
        rcases nameF with - | nm <;> rcases priceF with - | - | pr <;>
          rcases stockF with - | - | sk <;> rcases categoryF with - | c <;>
          simp only [priceBad, stockBad, NumField.isAbsent, decide_eq_true_eq] <;>
          split_ifs <;>
          first
            | exact hst
            | (refine saveProduct_nonneg ?_ hst
               try simp
               omega)
  · intro pid q st st1 u h
    obtain ⟨p, hp, h1, h2, h3, -⟩ := dec_some_exists h
    exact ⟨p, hp, h1, h2, h3⟩

/-- Witness for C3: a concrete failing order preserves non-negative
stocks, and a concrete guarded decrement exhibits the guard. -/
theorem stock_nonneg_invariant_witness :
    stocksNonneg [wProductA, wProductB] ∧
    stocksNonneg (postOrders wReqFail [wProductA, wProductB] []).store ∧
    findOneAndUpdateDec "paaaaaaaaaaa" 1 [wProductA] =
      (some wProductA0, [wProductA0]) ∧
    (∃ p ∈ [wProductA], p.pid = "paaaaaaaaaaa" ∧ 1 ≤ p.stock ∧
      wProductA0 = { p with stock := p.stock - 1 }) :=
  ⟨by unfold stocksNonneg; with_unfolding_all decide,
    stock_nonneg_invariant.1 wReqFail [wProductA, wProductB] []
      (by unfold stocksNonneg; with_unfolding_all decide),
    by with_unfolding_all decide,
    stock_nonneg_invariant.2.2.2 "paaaaaaaaaaa" 1 [wProductA] [wProductA0]
      wProductA0 (by with_unfolding_all decide)⟩

/-- C4: Order status transition guard.  For a PUT
/api/orders/:id/status request on an existing order, the request is
rejected with HTTP 400 exactly when the requested status is missing or
outside the enumeration, or the order is delivered and the requested
status is pending; on rejection the collection is unchanged; every
other requested status is accepted and persisted on that order. -/
theorem status_transition_guard (oid : String) (reqStatus : Option String)
    (orders : List StoredOrder) (o : Order)
    (hv : isValidObjectId oid = true)
    (hfind : findOrder oid orders = some o) :
    ((putOrderStatus oid reqStatus orders).1 = .badRequest ↔
      (reqStatus.bind statusOfString = none ∨
        (o.status = .delivered ∧ reqStatus = some "pending"))) ∧
    ((putOrderStatus oid reqStatus orders).1 = .badRequest →
      (putOrderStatus oid reqStatus orders).2 = orders) ∧
    (∀ s newSt, reqStatus = some s → statusOfString s = some newSt →
      ¬(o.status = .delivered ∧ s = "pending") →
      (putOrderStatus oid reqStatus orders).1 = .ok { o with status := newSt } ∧
      findOrder oid (putOrderStatus oid reqStatus orders).2 =
        some { o with status := newSt }) := by
  have hv' : ¬ (isValidObjectId oid = false) := by simp [hv]
  rcases reqStatus with - | s
  · have heq : putOrderStatus oid none orders = (.badRequest, orders) := by
      simp only [putOrderStatus, if_neg hv']
    rw [heq]
    refine ⟨by simp, fun _ => rfl, ?_⟩
    intro s' ns hs' hns hg
    exact absurd hs' (by simp)
  · rcases hss : statusOfString s with - | newSt
    · have heq : putOrderStatus oid (some s) orders = (.badRequest, orders) := by
        simp only [putOrderStatus, if_neg hv', hss]
      rw [heq]
      refine ⟨by simp [hss], fun _ => rfl, ?_⟩
      intro s' ns hs' hns hg
      injection hs' with hs'
      subst hs'
      rw [hss] at hns
      exact absurd hns (by simp)
    · by_cases hguard : o.status = OrderStatus.delivered ∧ s = "pending"
      · have heq : putOrderStatus oid (some s) orders = (.badRequest, orders) := by
          simp only [putOrderStatus, if_neg hv', hss, hfind, if_pos hguard]
        rw [heq]
        refine ⟨?_, fun _ => rfl, ?_⟩
        · simp only [Option.some_bind, hss]
          constructor
          · intro _
            exact Or.inr ⟨hguard.1, by rw [hguard.2]⟩
          · intro _
            trivial
        · intro s' ns hs' hns hg
          injection hs' with hs'
          subst hs'
          exact absurd hguard hg
      · have heq : putOrderStatus oid (some s) orders =
            (.ok { o with status := newSt }, setOrderStatus oid newSt orders) := by
          simp only [putOrderStatus, if_neg hv', hss, hfind, if_neg hguard]
        rw [heq]
        refine ⟨?_, ?_, ?_⟩
        · simp only [Option.some_bind, hss]
          constructor
          · intro hbad
            exact absurd hbad (by simp)
          · rintro (hr | ⟨hd, hp⟩)
            · exact absurd hr (by simp)
            · injection hp with hp
              exact absurd ⟨hd, hp⟩ hguard
        · intro hbad
          exact absurd hbad (by simp)
        · intro s' ns hs' hns hg
          injection hs' with hs'
          subst hs'
          rw [hss] at hns
          injection hns with hns
          subst hns
          refine ⟨rfl, ?_⟩
          rw [findOrder_setOrderStatus, hfind]
          rfl

/-- Witness for C4, specification scenario 5: setting a delivered
order back to pending is rejected with the collection unchanged. -/
theorem status_transition_guard_witness :
    isValidObjectId "oaaaaaaaaaaa" = true ∧
    findOrder "oaaaaaaaaaaa" wStoredOrders = some wOrderDelivered ∧
    (putOrderStatus "oaaaaaaaaaaa" (some "pending") wStoredOrders).1 = .badRequest ∧
    (putOrderStatus "oaaaaaaaaaaa" (some "pending") wStoredOrders).2 = wStoredOrders := by
  have h := status_transition_guard "oaaaaaaaaaaa" (some "pending") wStoredOrders
    wOrderDelivered (by with_unfolding_all decide) (by with_unfolding_all decide)
  have hbad : (putOrderStatus "oaaaaaaaaaaa" (some "pending") wStoredOrders).1 =
      .badRequest :=
    h.1.mpr (Or.inr ⟨by with_unfolding_all decide, rfl⟩)
  exact ⟨by with_unfolding_all decide, by with_unfolding_all decide, hbad, h.2.1 hbad⟩

theorem postOrders_pass (req : OrderReq) (st : Store) (orders : List Order)
    (its : List ReqItem)
    (hits : req.items = some its)
    (hn : falsy req.customerName = false) (he : falsy req.customerEmail = false)
    (ha : falsy req.address = false)
    (hem : emailOk (req.customerEmail.getD "") = true)
    (hl0 : ¬ (its.length = 0)) (hl50 : ¬ (50 < its.length)) :
    postOrders req st orders = loopOutcomeRes req st orders its := by
  simp only [postOrders, hn, he, ha, hem, hits, hl0, hl50]
  simp [loopOutcomeRes]

/-- C5 counterexample: the quantity check runs inside the reservation
loop, per item, after earlier items' stock has already been
decremented.  This two-item request fails with the quantity
ValidationError, but its mutation trace records a decrement (and its
compensation) performed before the failing check — refuting "this
validation failure occurs before any stock mutation is attempted for
the request". -/
theorem quantity_validation_counterexample :
    wReqBadQty.items = some [wItemC1, wItemBadQty] ∧
    qtyOk (coerceQty wItemBadQty.quantity) = false ∧
    (postOrders wReqBadQty [wProductC] []).outcome = .badRequest .badQuantity ∧
    (postOrders wReqBadQty [wProductC] []).trace =
      [.dec "pccccccccccc" 1, .inc "pccccccccccc" 1] := by
  with_unfolding_all decide

/-- C5 amended: a request containing a line item whose coerced
quantity is not an integer in 1..1000 always fails with HTTP 400 (with
the quantity ValidationError when no earlier item's check fails
first); decrements already performed for earlier items may precede the
failing check, but each is compensated, so the final store equals the
pre-request store; when the offending item is the first one processed,
the quantity error is returned with no stock mutation at all. -/
theorem quantity_validation_amended :
    (∀ (req : OrderReq) (st : Store) (orders : List Order)
      (its : List ReqItem) (it : ReqItem),
      req.items = some its → it ∈ its → qtyOk (coerceQty it.quantity) = false →
      (postOrders req st orders).outcome.http = 400) ∧
    (∀ (req : OrderReq) (st : Store) (orders : List Order),
      (st.map Product.pid).Nodup →
      (postOrders req st orders).outcome = .badRequest .badQuantity →
      (postOrders req st orders).store = st ∧
        (postOrders req st orders).orders = orders) ∧
    (∀ (req : OrderReq) (st : Store) (orders : List Order)
      (it : ReqItem) (rest : List ReqItem),
      req.items = some (it :: rest) →
      falsy req.customerName = false → falsy req.customerEmail = false →
      falsy req.address = false → emailOk (req.customerEmail.getD "") = true →
      (it :: rest).length ≤ 50 →
      qtyOk (coerceQty it.quantity) = false →
      postOrders req st orders = ⟨.badRequest .badQuantity, st, orders, []⟩) := by
  refine ⟨?_, ?_, ?_⟩
  · intro req st orders its it hits hmem hbad
    rcases ho : (postOrders req st orders).outcome with e | o
    · rfl
    · exfalso
      rcases postOrders_char req st orders with ⟨e', -, -, heq⟩ |
        ⟨its2, hits2, -, -, -, -, -, -, heq⟩
      · rw [heq] at ho
        exact absurd ho (by simp)
      · rw [hits] at hits2
        injection hits2 with hits2
        subst hits2
        rw [heq] at ho
        rcases hr : (reserveLoop st [] [] [] 0 its).res with e2 | x
        · simp only [loopOutcomeRes, hr] at ho
          exact absurd ho (by simp)
        · have hq := (reserveLoop_inr_all hr it hmem).1
          rw [hq] at hbad
          exact absurd hbad (by simp)
  · intro req st orders hnd h
    exact postOrders_badRequest hnd h
  · intro req st orders it rest hits hn he ha hem hlen hbad
    rw [postOrders_pass req st orders (it :: rest) hits hn he ha hem (by simp)
      (Nat.not_lt.mpr hlen)]
    have hloop : reserveLoop st [] [] [] 0 (it :: rest) =
        ⟨Sum.inl OrderError.badQuantity, st, []⟩ := by
      simp only [reserveLoop, if_pos hbad]
      rfl
    simp only [loopOutcomeRes, hloop]

/-- Witness for C5 amended: a single-item request with quantity 2000
fails with the quantity error and no mutation; the two-item
counterexample request answers HTTP 400. -/
theorem quantity_validation_amended_witness :
    wReqBadQtyFirst.items = some [wItemBadQty] ∧
    qtyOk (coerceQty wItemBadQty.quantity) = false ∧
    postOrders wReqBadQtyFirst [wProductC] [] =
      ⟨.badRequest .badQuantity, [wProductC], [], []⟩ ∧
    wItemBadQty ∈ [wItemC1, wItemBadQty] ∧
    (postOrders wReqBadQty [wProductC] []).outcome.http = 400 := by
  refine ⟨by with_unfolding_all decide, by with_unfolding_all decide, ?_,
    by with_unfolding_all decide, ?_⟩
  · exact quantity_validation_amended.2.2 wReqBadQtyFirst [wProductC] []
      wItemBadQty [] (by with_unfolding_all decide)
      (by with_unfolding_all decide) (by with_unfolding_all decide)
      (by with_unfolding_all decide) (by with_unfolding_all decide)
      (by with_unfolding_all decide) (by with_unfolding_all decide)
  · exact quantity_validation_amended.1 wReqBadQty [wProductC] []
      [wItemC1, wItemBadQty] wItemBadQty (by with_unfolding_all decide)
      (by with_unfolding_all decide) (by with_unfolding_all decide)

/-- C6: Top-level validation before any mutation.  A request with a
missing or empty customerName, customerEmail or address, an e-mail
failing the address pattern, an items field that is not a non-empty
array, or more than 50 line items, fails with a ValidationError-class
HTTP 400 before the reservation loop runs: the store is unchanged, no
order is created, and the mutation trace is empty (no decrement is
even attempted). -/
theorem prevalidation_no_mutation (req : OrderReq) (st : Store)
    (orders : List Order)
    (hbad : falsy req.customerName = true ∨ falsy req.customerEmail = true ∨
      falsy req.address = true ∨ emailOk (req.customerEmail.getD "") = false ∨
      req.items = none ∨
      (∃ its, req.items = some its ∧ (its.length = 0 ∨ 50 < its.length))) :
    ∃ e : OrderError, e.isValidation = true ∧
      postOrders req st orders = ⟨.badRequest e, st, orders, []⟩ := by
  rcases postOrders_char req st orders with ⟨e, he1, -, heq⟩ |
    ⟨its, hits, hn, he, ha, hem, hl0, hl50, -⟩
  · exact ⟨e, he1, heq⟩
  · exfalso
    rcases hbad with h | h | h | h | h | ⟨its2, h2, h3⟩
    · rw [hn] at h; exact Bool.false_ne_true h
    · rw [he] at h; exact Bool.false_ne_true h
    · rw [ha] at h; exact Bool.false_ne_true h
    · rw [hem] at h; exact absurd h (by simp)
    · rw [hits] at h; exact absurd h (by simp)
    · rw [hits] at h2
      injection h2 with h2
      subst h2
      rcases h3 with h3 | h3
      · rw [h3] at hl0; exact absurd hl0 (by simp)
      · exact absurd h3 (Nat.not_lt.mpr hl50)

/-- Witness for C6, specification scenario 4: a request with 51 line
items fails with a ValidationError and the state is untouched. -/
theorem prevalidation_no_mutation_witness :
    (List.replicate 51 wItemC1).length = 51 ∧
    (∃ e : OrderError, e.isValidation = true ∧
      postOrders wReq51 [wProductC] [] = ⟨.badRequest e, [wProductC], [], []⟩) := by
  refine ⟨by with_unfolding_all decide, ?_⟩
  exact prevalidation_no_mutation wReq51 [wProductC] []
    (Or.inr (Or.inr (Or.inr (Or.inr (Or.inr
      ⟨List.replicate 51 wItemC1, rfl, Or.inr (by with_unfolding_all decide)⟩)))))

/-- C7 counterexample: within one item, the quantity check precedes
the reference check, so an item with both a malformed product id and
an out-of-range quantity fails with the quantity ValidationError and
never with InvalidReferenceError — refuting "for every request
containing a line item whose product reference is not a syntactically
valid identifier, the request fails with InvalidReferenceError". -/
theorem invalid_reference_counterexample :
    wReqBadRef.items = some [wItemBadRef] ∧
    isValidObjectId wItemBadRef.prodId = false ∧
    (postOrders wReqBadRef [wProductC] []).outcome = .badRequest .badQuantity ∧
    (∀ pid, (postOrders wReqBadRef [wProductC] []).outcome ≠
      .badRequest (.invalidReference pid)) := by
  refine ⟨by with_unfolding_all decide, by with_unfolding_all decide,
    by with_unfolding_all decide, ?_⟩
  intro pid h
  rw [show (postOrders wReqBadRef [wProductC] []).outcome =
      .badRequest .badQuantity from by with_unfolding_all decide] at h
  injection h with h
  exact absurd h (by simp)

/-- C7 amended: a request containing a line item with a syntactically
invalid product reference always fails with HTTP 400 (with
InvalidReferenceError precisely when no earlier check fails first); an
InvalidReferenceError names an invalid identifier, creates no Order,
and leaves the store at its pre-request stocks (given unique ids);
when the offending item is the first one processed and its quantity is
valid, the error is returned with no stock mutation at all. -/
theorem invalid_reference_amended :
    (∀ (req : OrderReq) (st : Store) (orders : List Order)
      (its : List ReqItem) (it : ReqItem),
      req.items = some its → it ∈ its → isValidObjectId it.prodId = false →
      (postOrders req st orders).outcome.http = 400) ∧
    (∀ (req : OrderReq) (st : Store) (orders : List Order) (pid : String),
      (postOrders req st orders).outcome = .badRequest (.invalidReference pid) →
      isValidObjectId pid = false ∧
      (postOrders req st orders).orders = orders ∧
      ((st.map Product.pid).Nodup → (postOrders req st orders).store = st)) ∧
    (∀ (req : OrderReq) (st : Store) (orders : List Order)
      (it : ReqItem) (rest : List ReqItem),
      req.items = some (it :: rest) →
      falsy req.customerName = false → falsy req.customerEmail = false →
      falsy req.address = false → emailOk (req.customerEmail.getD "") = true →
      (it :: rest).length ≤ 50 →
      qtyOk (coerceQty it.quantity) = true →
      isValidObjectId it.prodId = false →
      postOrders req st orders =
        ⟨.badRequest (.invalidReference it.prodId), st, orders, []⟩) := by
  refine ⟨?_, ?_, ?_⟩
  · intro req st orders its it hits hmem hbad
    rcases ho : (postOrders req st orders).outcome with e | o
    · rfl
    · exfalso
      rcases postOrders_char req st orders with ⟨e', -, -, heq⟩ |
        ⟨its2, hits2, -, -, -, -, -, -, heq⟩
      · rw [heq] at ho
        exact absurd ho (by simp)
      · rw [hits] at hits2
        injection hits2 with hits2
        subst hits2
        rw [heq] at ho
        rcases hr : (reserveLoop st [] [] [] 0 its).res with e2 | x
        · simp only [loopOutcomeRes, hr] at ho
          exact absurd ho (by simp)
        · have hv := (reserveLoop_inr_all hr it hmem).2
          rw [hv] at hbad
          exact absurd hbad (by simp)
  · intro req st orders pid h
    have hid : isValidObjectId pid = false := by
      rcases postOrders_char req st orders with ⟨e', hval, -, heq⟩ |
        ⟨its, -, -, -, -, -, -, -, heq⟩
      · rw [heq] at h
        injection h with h
        rw [h] at hval
        simp [OrderError.isValidation] at hval
      · rw [heq] at h
        rcases hr : (reserveLoop st [] [] [] 0 its).res with e2 | x
        · simp only [loopOutcomeRes, hr] at h
          injection h with h
          rw [h] at hr
          exact reserveLoop_inl_ref hr
        · simp only [loopOutcomeRes, hr] at h
          exact absurd h (by simp)
    have hord : (postOrders req st orders).orders = orders := by
      rcases postOrders_char req st orders with ⟨e', -, -, heq⟩ |
        ⟨its, -, -, -, -, -, -, -, heq⟩
      · rw [heq]
      · rw [heq] at h ⊢
        rcases hr : (reserveLoop st [] [] [] 0 its).res with e2 | x
        · simp only [loopOutcomeRes, hr]
        · simp only [loopOutcomeRes, hr] at h
          exact absurd h (by simp)
    exact ⟨hid, hord, fun hnd => (postOrders_badRequest hnd h).1⟩
  · intro req st orders it rest hits hn he ha hem hlen hq hbad
    rw [postOrders_pass req st orders (it :: rest) hits hn he ha hem (by simp)
      (Nat.not_lt.mpr hlen)]
    have hloop : reserveLoop st [] [] [] 0 (it :: rest) =
        ⟨Sum.inl (OrderError.invalidReference it.prodId), st, []⟩ := by
      have hq' : ¬ (qtyOk (coerceQty it.quantity) = false) := by simp [hq]
      simp only [reserveLoop, if_neg hq', if_pos hbad]
      rfl
    simp only [loopOutcomeRes, hloop]

/-- Witness for C7 amended, specification scenario 3: a single-item
request with the malformed id "xyz" and a valid quantity fails with
InvalidReferenceError naming it, with no stock mutated. -/
theorem invalid_reference_amended_witness :
    wReqBadRefOnly.items = some [wItemBadRefOnly] ∧
    wItemBadRefOnly.prodId = "xyz" ∧
    isValidObjectId wItemBadRefOnly.prodId = false ∧
    postOrders wReqBadRefOnly [wProductC] [] =
      ⟨.badRequest (.invalidReference wItemBadRefOnly.prodId), [wProductC], [], []⟩ ∧
    (postOrders wReqBadRefOnly [wProductC] []).outcome.http = 400 := by
  refine ⟨by with_unfolding_all decide, by with_unfolding_all decide,
    by with_unfolding_all decide, ?_, ?_⟩
  · exact invalid_reference_amended.2.2 wReqBadRefOnly [wProductC] []
      wItemBadRefOnly [] (by with_unfolding_all decide)
      (by with_unfolding_all decide) (by with_unfolding_all decide)
      (by with_unfolding_all decide) (by with_unfolding_all decide)
      (by with_unfolding_all decide) (by with_unfolding_all decide)
      (by with_unfolding_all decide)
  · exact invalid_reference_amended.1 wReqBadRefOnly [wProductC] []
      [wItemBadRefOnly] wItemBadRefOnly (by with_unfolding_all decide)
      (by with_unfolding_all decide) (by with_unfolding_all decide)

/-- C8: Category referential integrity on delete.  For a DELETE
/api/categories/:id request on an existing category: if some product's
category field equals the category's name, the request answers HTTP
400 and the collection is unchanged; and (for a valid id) the category
is deleted exactly when no product references its name, the deletion
removing it from the collection. -/
theorem category_delete_integrity (cid : String) (cats : List Category)
    (st : Store) (c : Category) (hfind : findCategory cid cats = some c) :
    ((∃ p ∈ st, p.category = c.name) →
      deleteCategory cid cats st = (.badRequest, cats)) ∧
    (isValidObjectId cid = true →
      (((deleteCategory cid cats st).1 = .deleted) ↔
        ∀ p ∈ st, p.category ≠ c.name) ∧
      ((deleteCategory cid cats st).1 = .deleted →
        (deleteCategory cid cats st).2 = removeCategory cid cats)) := by
  constructor
  · intro hex
    by_cases hv : isValidObjectId cid = false
    · simp only [deleteCategory, if_pos hv]
    · have hpos : 0 < countProducts c.name st := (countProducts_pos_iff _ _).mpr hex
      simp only [deleteCategory, if_neg hv, hfind, if_pos hpos]
  · intro hv
    have hv' : ¬ (isValidObjectId cid = false) := by simp [hv]
    by_cases hpos : 0 < countProducts c.name st
    · have heq : deleteCategory cid cats st = (.badRequest, cats) := by
        simp only [deleteCategory, if_neg hv', hfind, if_pos hpos]
      rw [heq]
      constructor
      · constructor
        · intro hbad
          exact absurd hbad (by simp)
        · intro hnone
          exfalso
          obtain ⟨p, hp, hc⟩ := (countProducts_pos_iff _ _).mp hpos
          exact hnone p hp hc
      · intro hbad
        exact absurd hbad (by simp)
    · have heq : deleteCategory cid cats st = (.deleted, removeCategory cid cats) := by
        simp only [deleteCategory, if_neg hv', hfind, if_neg hpos]
      rw [heq]
      refine ⟨⟨fun _ => ?_, fun _ => rfl⟩, fun _ => rfl⟩
      intro p hp hc
      exact hpos ((countProducts_pos_iff _ _).mpr ⟨p, hp, hc⟩)

/-- Witness for C8: deleting the category "clean" while product C
references it answers HTTP 400 and removes nothing. -/
theorem category_delete_integrity_witness :
    findCategory "caaaaaaaaaaa" [wCategoryClean] = some wCategoryClean ∧
    wProductC ∈ [wProductC] ∧ wProductC.category = wCategoryClean.name ∧
    deleteCategory "caaaaaaaaaaa" [wCategoryClean] [wProductC] =
      (.badRequest, [wCategoryClean]) := by
  refine ⟨by with_unfolding_all decide, by with_unfolding_all decide,
    by with_unfolding_all decide, ?_⟩
  exact (category_delete_integrity "caaaaaaaaaaa" [wCategoryClean] [wProductC]
    wCategoryClean (by with_unfolding_all decide)).1
    ⟨wProductC, by with_unfolding_all decide, by with_unfolding_all decide⟩

/-- C9: Implicit quantity defaulting.  A line item whose quantity is
absent, zero, or not coercible to a number is treated as quantity 1
(the coercion yields 1, which passes validation); consequently an
order whose items all lack a usable quantity is created with every
line-item quantity equal to 1 and every stock decrement of exactly one
unit. -/
theorem quantity_defaulting :
    (coerceQty .missing = 1 ∧ coerceQty .nonNumeric = 1 ∧ coerceQty (.num 0) = 1 ∧
      qtyOk (coerceQty .missing) = true) ∧
    (∀ (req : OrderReq) (st : Store) (orders : List Order) (o : Order)
      (st' : Store) (ords' : List Order) (tr : List StockMut) (its : List ReqItem),
      postOrders req st orders = ⟨.created o, st', ords', tr⟩ →
      req.items = some its →
      (∀ it ∈ its, it.quantity = JsQty.missing ∨ it.quantity = JsQty.nonNumeric ∨
        it.quantity = JsQty.num 0) →
      (∀ oit ∈ o.items, oit.quantity = 1) ∧
      (∀ m ∈ tr, ∃ pid, m = StockMut.dec pid 1)) := by
  constructor
  · exact ⟨rfl, rfl, by simp [coerceQty], by with_unfolding_all decide⟩
  · intro req st orders o st' ords' tr its h hits hdef
    obtain ⟨-, -, -, its2, hits2, hfields, -, htr⟩ := postOrders_created_spec h
    rw [hits] at hits2
    injection hits2 with hits2
    subst hits2
    have hone : ∀ it ∈ its, coerceQty it.quantity = 1 := by
      intro it hit
      rcases hdef it hit with hq | hq | hq <;> rw [hq] <;> simp [coerceQty]
    constructor
    · intro oit hoit
      obtain ⟨-, it, hit, hq⟩ := hfields oit hoit
      rw [hq, hone it hit]
    · intro m hm
      obtain ⟨it, hit, hme⟩ := htr m hm
      refine ⟨it.prodId, ?_⟩
      rw [hme, hone it hit]
      simp

/-- Witness for C9: a one-item order without a quantity field creates
an order with line-item quantity 1 and decrements the product's stock
by exactly 1. -/
theorem quantity_defaulting_witness :
    wReqNoQty.items = some [wItemNoQty] ∧
    wItemNoQty.quantity = JsQty.missing ∧
    postOrders wReqNoQty [wProductC] [] =
      ⟨.created wOrderNoQty, [wProductC3], [wOrderNoQty], [.dec "pccccccccccc" 1]⟩ ∧
    (∀ oit ∈ wOrderNoQty.items, oit.quantity = 1) ∧
    (∀ m ∈ [StockMut.dec "pccccccccccc" 1], ∃ pid, m = StockMut.dec pid 1) := by
  have h := quantity_defaulting.2 wReqNoQty [wProductC] [] wOrderNoQty [wProductC3]
    [wOrderNoQty] [.dec "pccccccccccc" 1] [wItemNoQty]
    (by with_unfolding_all decide) (by with_unfolding_all decide)
    (by with_unfolding_all decide)
  exact ⟨by with_unfolding_all decide, by with_unfolding_all decide,
    by with_unfolding_all decide, h.1, h.2⟩

/-- C10: Out-of-stock filtering on product listing.  Without the query
parameter `all` (or with `all=false`), GET /api/products returns
exactly the in-stock products (stock strictly positive) matching the
category filter when one is given (the values "" and "all" being the
handler's no-filter sentinels); and a product with no stock can only
ever be returned when `all` is supplied with a value other than
"false" (and other than the empty string, which the handler also
treats as unset). -/
theorem product_listing_filter :
    (∀ (st : Store) (category allq : Option String) (p : Product),
      allq = none ∨ allq = some "false" →
      (p ∈ getProducts category allq st ↔ p ∈ st ∧ 0 < p.stock ∧
        (∀ c, category = some c → c ≠ "" → c ≠ "all" → p.category = c))) ∧
    (∀ (st : Store) (category allq : Option String) (p : Product),
      p ∈ getProducts category allq st → p.stock ≤ 0 →
      ∃ v, allq = some v ∧ v ≠ "false") := by
  have hcat : ∀ (category : Option String) (p : Product),
      (catFilterOk category p = true ↔
        (∀ c, category = some c → c ≠ "" → c ≠ "all" → p.category = c)) := by
    intro category p
    rcases category with - | c
    · simp [catFilterOk]
    · by_cases hc : c ≠ "" ∧ c ≠ "all"
      · simp only [catFilterOk, if_pos hc, beq_iff_eq]
        constructor
        · intro h c' hc' _ _
          injection hc' with hc'
          exact hc' ▸ h
        · intro h
          exact h c rfl hc.1 hc.2
      · simp only [catFilterOk, if_neg hc]
        constructor
        · intro _ c' hc' h1 h2
          injection hc' with hc'
          subst hc'
          exact absurd ⟨h1, h2⟩ hc
        · intro _
          trivial
  constructor
  · intro st category allq p hall
    rw [getProducts, List.mem_filter]
    have hstock : stockFilterOk allq p = decide (0 < p.stock) := by
      rcases hall with h | h <;> subst h <;> simp [stockFilterOk]
    constructor
    · rintro ⟨hmem, hf⟩
      rw [Bool.and_eq_true] at hf
      refine ⟨hmem, ?_, (hcat category p).mp hf.1⟩
      have hs := hf.2
      rw [hstock] at hs
      exact of_decide_eq_true hs
    · rintro ⟨hmem, hs, hct⟩
      refine ⟨hmem, ?_⟩
      rw [Bool.and_eq_true, hstock]
      exact ⟨(hcat category p).mpr hct, decide_eq_true hs⟩
  · intro st category allq p hmem hstock
    rw [getProducts, List.mem_filter, Bool.and_eq_true] at hmem
    have hsf := hmem.2.2
    rcases allq with - | a
    · simp only [stockFilterOk, decide_eq_true_eq] at hsf
      exact absurd hsf (by omega)
    · by_cases ha : a = "" ∨ a = "false"
      · simp only [stockFilterOk, if_pos ha, decide_eq_true_eq] at hsf
        exact absurd hsf (by omega)
      · exact ⟨a, rfl, fun hfa => ha (Or.inr hfa)⟩

/-- Witness for C10: with no query parameters, the out-of-stock
product B is filtered out while product A is listed. -/
theorem product_listing_filter_witness :
    getProducts none none [wProductA, wProductB] = [wProductA] ∧
    (wProductA ∈ getProducts none none [wProductA, wProductB] ↔
      wProductA ∈ [wProductA, wProductB] ∧ 0 < wProductA.stock ∧
      (∀ c, (none : Option String) = some c → c ≠ "" → c ≠ "all" →
        wProductA.category = c)) :=
  ⟨by with_unfolding_all decide,
    product_listing_filter.1 [wProductA, wProductB] none none wProductA (Or.inl rfl)⟩

end Claims

end CleanStore
